import Mathlib

/-!
Verification development for the paperetl CORD-19 ingestion pipeline.

The definitions below are a shallow embedding of the two core modules,
src/python/paperetl/cord19/execute.py and src/python/paperetl/cord19/section.py.
Pure Python helpers become Lean functions; the stateful orchestrator loop in
Execute.run becomes an explicit fold over a run state; machine integers are
modelled as Nat with explicit reduction modulo 2 ^ 32 where SHA-1 needs it;
code that can raise becomes Option / Except valued.

External collaborators that the repository imports but does not define
(the dateutil free-form date parser, the nltk sentence tokenizer, the
Text normalizer, the Table html extractor, the regex keyword matcher, the
Grammar / Study annotation service, and the filesystem of companion JSON
files) are passed in as components of an explicit environment value, so
every theorem quantifies over their behavior.
-/

/-! ## Python string primitives, modelled character-wise -/

/-- Model of the Python `str.split(sep)` loop, fuelled to keep the recursion
structural (fuel is the length of the input, an upper bound on the number of
steps). Matches Python semantics for a non-empty separator. -/
def pySplitFuel (sep : List Char) : Nat → List Char → List Char → List (List Char)
  | _, acc, [] => [acc.reverse]
  | 0, acc, l => [acc.reverse ++ l]
  | fuel + 1, acc, c :: rest =>
    if sep.isPrefixOf (c :: rest) then
      acc.reverse :: pySplitFuel sep fuel [] (rest.drop (sep.length - 1))
    else
      pySplitFuel sep fuel (c :: acc) rest

/-- Python `s.split(sep)` for a non-empty separator. -/
def pySplit (s sep : String) : List String :=
  (pySplitFuel sep.toList s.toList.length [] s.toList).map (fun l => String.mk l)

/-- Python `s.upper()` (ASCII, which covers all section names in the data). -/
def pyUpper (s : String) : String :=
  String.mk (s.toList.map Char.toUpper)

/-- Python `len(s.strip()) == 0`: every character is whitespace. -/
def isBlankStr (s : String) : Bool :=
  s.toList.all Char.isWhitespace

/-- Python `s.replace("\n", " ")` for the single-character pattern used in
section.py. -/
def replaceNL (s : String) : String :=
  String.mk (s.toList.map (fun c => if c = '\n' then ' ' else c))

/-- Is `pat` an infix of the character list? -/
def infixB (pat : List Char) : List Char → Bool
  | [] => pat.isEmpty
  | c :: rest => pat.isPrefixOf (c :: rest) || infixB pat rest

/-- Python substring containment `pat in s`. -/
def containsSub (s pat : String) : Bool :=
  infixB pat.toList s.toList

/-- Value of a string of decimal digits, for relating a bare 4-digit year to
the date it resolves to. -/
def digitsToNat (s : String) : Nat :=
  s.toList.foldl (fun a c => a * 10 + (c.toNat - 48)) 0

/-! ## UTF-8 encoding and SHA-1 (hashlib.sha1 on `row["title"].encode("utf-8")`) -/

/-- UTF-8 bytes of one character. -/
def utf8Char (c : Char) : List Nat :=
  let n := c.toNat
  if n < 128 then [n]
  else if n < 2048 then [192 + n / 64, 128 + n % 64]
  else if n < 65536 then [224 + n / 4096, 128 + (n / 64) % 64, 128 + n % 64]
  else [240 + n / 262144, 128 + (n / 4096) % 64, 128 + (n / 64) % 64, 128 + n % 64]

/-- UTF-8 bytes of a string, Python `s.encode("utf-8")`. -/
def utf8Encode (s : String) : List Nat :=
  s.toList.flatMap utf8Char

/-- Reduce modulo 2 ^ 32. -/
def u32 (n : Nat) : Nat := n % 4294967296

/-- Rotate a 32-bit word left by `n` bits. -/
def rotl (n x : Nat) : Nat := u32 (x <<< n + x >>> (32 - n))

/-- Big-endian bytes of a number, fixed width `k`. -/
def toBytesBE : Nat → Nat → List Nat
  | 0, _ => []
  | k + 1, n => toBytesBE k (n / 256) ++ [n % 256]

/-- One big-endian 32-bit word from the first four bytes of a list. -/
def word4 (l : List Nat) : Nat :=
  ((l.getD 0 0 * 256 + l.getD 1 0) * 256 + l.getD 2 0) * 256 + l.getD 3 0

/-- Group a byte list into big-endian 32-bit words (fuel = word count). -/
def wordsFuel : Nat → List Nat → List Nat
  | 0, _ => []
  | f + 1, l => word4 l :: wordsFuel f (l.drop 4)

/-- SHA-1 round function. -/
def roundF (i b c d : Nat) : Nat :=
  if i < 20 then (b &&& c) ||| ((b ^^^ 4294967295) &&& d)
  else if i < 40 then b ^^^ c ^^^ d
  else if i < 60 then (b &&& c) ||| (b &&& d) ||| (c &&& d)
  else b ^^^ c ^^^ d

/-- SHA-1 round constant. -/
def roundK (i : Nat) : Nat :=
  if i < 20 then 1518500249
  else if i < 40 then 1859775393
  else if i < 60 then 2400959708
  else 3395469782

/-- SHA-1 message-schedule expansion: given the last 16 words oldest-first,
produce the next `count` words. -/
def expandFrom (last16 : List Nat) : Nat → List Nat
  | 0 => []
  | c + 1 =>
    let nw := rotl 1 (last16.getD 13 0 ^^^ last16.getD 8 0 ^^^ last16.getD 2 0 ^^^ last16.getD 0 0)
    nw :: expandFrom (last16.drop 1 ++ [nw]) c

/-- SHA-1 hash state: five 32-bit words. -/
abbrev Sha1State := Nat × Nat × Nat × Nat × Nat

/-- SHA-1 compression of one 16-word block into the running state. -/
def sha1Compress (h : Sha1State) (ws : List Nat) : Sha1State :=
  let sched := ws ++ expandFrom ws 64
  let fin := sched.enum.foldl
    (fun st iw =>
      let t := u32 (rotl 5 st.1 + roundF iw.1 st.2.1 st.2.2.1 st.2.2.2.1 + st.2.2.2.2 +
                    roundK iw.1 + iw.2)
      (t, st.1, rotl 30 st.2.1, st.2.2.1, st.2.2.2.1))
    h
  (u32 (h.1 + fin.1), u32 (h.2.1 + fin.2.1), u32 (h.2.2.1 + fin.2.2.1),
   u32 (h.2.2.2.1 + fin.2.2.2.1), u32 (h.2.2.2.2 + fin.2.2.2.2))

/-- Process the padded message, 16 words per block (fuel = block count). -/
def sha1Blocks : Nat → Sha1State → List Nat → Sha1State
  | 0, h, _ => h
  | f + 1, h, ws => sha1Blocks f (sha1Compress h (ws.take 16)) (ws.drop 16)

/-- SHA-1 of a byte list: padding, block processing, five-word digest. -/
def sha1Bytes (msg : List Nat) : Sha1State :=
  let len := msg.length
  let padded := msg ++ [128] ++ List.replicate ((119 - len % 64) % 64) 0 ++ toBytesBE 8 (8 * len)
  let ws := wordsFuel (padded.length / 4) padded
  sha1Blocks (ws.length / 16) (1732584193, 4023233417, 2562383102, 271733878, 3285377520) ws

/-- The lowercase hex character of a value below 16. -/
def hexDigit (n : Nat) : Char :=
  Char.ofNat (if n < 10 then 48 + n else 87 + n)

/-- Fixed-width lowercase hex rendering. -/
def toHexFuel : Nat → Nat → List Char
  | 0, _ => []
  | k + 1, n => toHexFuel k (n / 16) ++ [hexDigit (n % 16)]

/-- `hashlib.sha1(bytes).hexdigest()`: the 40-character lowercase hex digest. -/
def sha1Hex (msg : List Nat) : String :=
  let d := sha1Bytes msg
  String.mk (toHexFuel 8 d.1 ++ toHexFuel 8 d.2.1 ++ toHexFuel 8 d.2.2.1 ++
             toHexFuel 8 d.2.2.2.1 ++ toHexFuel 8 d.2.2.2.2)

/-! ## Input rows and dates -/

/-- One row of metadata.csv, restricted to the named fields execute.py and
section.py read. All fields are strings, as csv.DictReader delivers them. -/
structure Row where
  cord_uid : String
  sha : String
  source_x : String
  title : String
  abstract : String
  publish_time : String
  authors : String
  journal : String
  url : String
  doi : String
  pdf_json_files : String
  pmc_json_files : String
deriving DecidableEq

/-- A calendar date, the observable part of the datetime values the pipeline
compares (dateutil returns midnight when no time is present). -/
structure Date where
  y : Nat
  m : Nat
  d : Nat
deriving DecidableEq

/-- Python datetime `a <= b`, lexicographic on (year, month, day). -/
def Date.le (a b : Date) : Bool :=
  decide (a.y < b.y ∨ (a.y = b.y ∧ (a.m < b.m ∨ (a.m = b.m ∧ a.d ≤ b.d))))

/-- Python datetime `a < b`. -/
def Date.lt (a b : Date) : Bool :=
  ! Date.le b a

/-! ## Execute: pure per-row helpers (execute.py) -/

/-- First element of the semicolon-delimited pre-supplied hash field. -/
def firstSha (row : Row) : String :=
  (pySplit row.sha "; ").headD ""

/-- Execute.getHash: use the first pre-supplied sha if the field is truthy and
its first element is truthy, else sha1 of the UTF-8 title. -/
def Execute.getHash (row : Row) : String :=
  let sha0 := if row.sha ≠ "" then firstSha row else ""
  if sha0 ≠ "" then sha0 else sha1Hex (utf8Encode row.title)

/-- Python `s.isdigit() and len(s) == 4` for the year-only special case. -/
def isYear4 (s : String) : Bool :=
  s.length == 4 && s.toList.all Char.isDigit

/-- The string actually handed to the free-form parser by Execute.getDate:
a bare 4-digit year is padded to January 1. -/
def effDate (pt : String) : String :=
  if isYear4 pt then pt ++ "-01-01" else pt

/-- Execute.getDate, parameterized by the external dateutil free-form parser
`p` (`p s = none` models a parse exception, which getDate swallows). -/
def Execute.getDate (p : String → Option Date) (row : Row) : Option Date :=
  if row.publish_time ≠ "" then p (effDate row.publish_time) else none

/-- Execute.getTags, parameterized by the keyword-regex match test `km`
(`km text` models `re.findall(regex, text.lower()) != []`). Mirrors the
source loop, which breaks at the first matching section. -/
def Execute.getTags (km : String → Bool) : List (Option String × String) → Option String
  | [] => none
  | (_, text) :: rest => if km text then some "COVID-19" else Execute.getTags km rest

/-- Execute.getUrl: first non-API url from the semicolon-delimited list, else
the DOI link. -/
def Execute.getUrl (row : Row) : String :=
  if row.url ≠ "" then
    match (pySplit row.url "; ").filter (fun u => ! containsSub u "https://api.") with
    | u :: _ => u
    | [] => "https://doi.org/" ++ row.doi
  else "https://doi.org/" ++ row.doi

/-! ## Section extraction (section.py) -/

/-- The observable content of one companion JSON full-text file: body sections
(heading, text), ref_entries (name, optional html), bib_entries titles. -/
structure FileData where
  body : List (String × String)
  refEntries : List (String × Option String)
  bibTitles : List String
deriving DecidableEq

/-- Environment of external collaborators. `read` models the filesystem plus
json.load: `none` is a missing or unreadable file (the per-file exception in
Section.parse); `transform` is Text.transform; `sentTok` is the nltk sentence
tokenizer; `tableParse` is Table.parse on an html fragment; `parse` is the
dateutil free-form date parser (none = parse exception); `km` is the
keyword-regex match test of Execute.getTags; `annotate` and `study` are the
Grammar / Study annotation service, used only for tagged records. -/
structure Env where
  read : String → Option FileData
  transform : String → String
  sentTok : String → List String
  tableParse : String → List String
  parse : String → Option Date
  km : String → Bool
  annotate : List (Option String × String) → List (Option String)
  study : List (Option String × String) →
    Option String × Option String × Option String × Option String

/-- The fixed boilerplate fragments of Section.filtered. -/
def boilerplate : List String :=
  ["COVID-19 resource centre", "permission to make all its COVID", "WHO COVID database",
   "COVID-19 public health emergency response"]

/-- Does the text contain any boilerplate fragment (case-sensitive substring)? -/
def hasBoiler (text : String) : Bool :=
  boilerplate.any (fun x => containsSub text x)

/-- The accumulation loop of Section.filtered: `unique` is the output so far,
`keys` the set of texts already kept. -/
def Section.filteredLoop :
    List (Option String × String) → List String → List (Option String × String) →
    List (Option String × String)
  | unique, _, [] => unique
  | unique, keys, (n, t) :: rest =>
    if t ∉ keys ∧ hasBoiler t = false then
      Section.filteredLoop (unique ++ [(n, t)]) (t :: keys) rest
    else
      Section.filteredLoop unique keys rest

/-- Section.filtered: drop duplicate and boilerplate section texts, dedup the
citation titles (the Python `list(set(citations))`, modelled as the
order-canonical dedup). -/
def Section.filtered (sections : List (Option String × String)) (citations : List String) :
    List (Option String × String) × List String :=
  (Section.filteredLoop [] [] sections, citations.dedup)

/-- Strip one leading `[` and one trailing `]` (the two re.sub calls). -/
def stripBrackets (s : String) : String :=
  let l := s.toList
  let l1 := if l.head? = some '[' then l.tail else l
  String.mk (if l1.getLast? = some ']' then l1.dropLast else l1)

/-- Title/abstract handling of Section.parse for one named field. -/
def sentencesOf (env : Env) (nm : String) (txt : String) : List (Option String × String) :=
  if txt ≠ "" then
    (env.sentTok (env.transform (stripBrackets txt))).map (fun x => (some (pyUpper nm), x))
  else []

/-- The title and abstract sections of a row. -/
def titleAbstractSections (env : Env) (row : Row) : List (Option String × String) :=
  sentencesOf env "title" row.title ++ sentencesOf env "abstract" row.abstract

/-- Sections extracted from one successfully loaded companion file: body text
(blank headings become a `none` name, others are uppercased), then table rows
from ref_entries carrying html. -/
def fileSections (env : Env) (d : FileData) : List (Option String × String) :=
  (d.body.flatMap (fun sec =>
    (env.sentTok (env.transform (replaceNL sec.2))).map
      (fun x => ((if isBlankStr sec.1 then none else some (pyUpper sec.1)), x))))
  ++ (d.refEntries.flatMap (fun e =>
    match e.2 with
    | some h => if h ≠ "" then (env.tableParse h).map (fun x => (some e.1, x)) else []
    | none => []))

/-- os.path.join for the relative companion paths of metadata.csv. -/
def pathJoin (a b : String) : String := a ++ "/" ++ b

/-- Section.files: companion paths from both semicolon-delimited columns. -/
def Section.files (row : Row) : List String :=
  (if row.pdf_json_files ≠ "" then pySplit row.pdf_json_files "; " else [])
  ++ (if row.pmc_json_files ≠ "" then pySplit row.pmc_json_files "; " else [])

/-- Per-file contribution: a missing or unreadable file (read = none, the
caught per-file exception) contributes no sections and no citations. -/
def fileContrib (env : Env) (dir : String) (p : String) :
    List (Option String × String) × List String :=
  match env.read (pathJoin dir p) with
  | none => ([], [])
  | some d => (fileSections env d, d.bibTitles)

/-- The body of Section.parse over an explicit path list. -/
def Section.parseFrom (env : Env) (dir : String) (row : Row) (paths : List String) :
    List (Option String × String) × List String :=
  Section.filtered
    (titleAbstractSections env row ++ (paths.map (fileContrib env dir)).flatMap Prod.fst)
    ((paths.map (fileContrib env dir)).flatMap Prod.snd)

/-- Section.parse: title/abstract plus every companion file of the row. -/
def Section.parse (env : Env) (dir : String) (row : Row) :
    List (Option String × String) × List String :=
  Section.parseFrom env dir row (Section.files row)

/-! ## Per-row processing (Execute.process) -/

/-- Modelled from the spec: the Article metadata tuple of the schema module
(not under src/) — record identifier, source, published date, journal,
authors, title, tags, study design fields, reference url. -/
structure Meta where
  cordUid : String
  source : String
  published : Option Date
  journal : String
  authors : String
  title : String
  tags : Option String
  design : Option String
  size : Option String
  sample : Option String
  method : Option String
  reference : String
deriving DecidableEq

/-- Modelled from the spec: the Article of the schema module (not under
src/): metadata, annotated sections, and the entry date appended on
acceptance (the tuple extension in Execute.run). -/
structure Article where
  metadata : Meta
  sections : List (Option String × String × Option String)
  entry : Option String
deriving DecidableEq

/-- Modelled from the spec: Article.uid is the declared record identifier. -/
def Article.uid (a : Article) : String := a.metadata.cordUid

/-- Modelled from the spec: Article.tags accessor. -/
def Article.tags (a : Article) : Option String := a.metadata.tags

/-- The fixed recency cutoff datetime(2019, 7, 1). -/
def cutoff : Date := ⟨2019, 7, 1⟩

/-- The date gate of Execute.process: scan when the date is unknown or at /
after the cutoff (`not date or date >= datetime(2019, 7, 1)`). -/
def scanOk (date : Option Date) : Bool :=
  match date with
  | none => true
  | some d => Date.le cutoff d

/-- The (sha, article, citations) triple returned by Execute.process. -/
structure Result where
  sha : String
  article : Article
  cites : Option (List String)
deriving DecidableEq

/-- Execute.process: hash, date, sections/citations, the tag decision, then
annotation for tagged records; untagged records get placeholder section
labels and their citations cleared. -/
def Execute.process (env : Env) (dir : String) (row : Row) : Result :=
  let sha := Execute.getHash row
  let date := Execute.getDate env.parse row
  let sc := Section.parse env dir row
  let tags := if scanOk date then Execute.getTags env.km sc.1 else none
  let annSections :=
    match tags with
    | some _ => (sc.1.zip (env.annotate sc.1)).map (fun z => (z.1.1, z.1.2, z.2))
    | none => sc.1.map (fun s => (s.1, s.2, (none : Option String)))
  let st :=
    match tags with
    | some _ => env.study sc.1
    | none => (none, none, none, none)
  { sha := sha
    article :=
      { metadata :=
          { cordUid := row.cord_uid, source := row.source_x, published := date,
            journal := row.journal, authors := row.authors, title := row.title,
            tags := tags, design := st.1, size := st.2.1, sample := st.2.2.1,
            method := st.2.2.2, reference := Execute.getUrl row }
        sections := annSections
        entry := none }
    cites :=
      match tags with
      | some _ => some sc.2
      | none => none }

/-! ## The orchestrator (Execute.run) -/

/-- One sink save call: the sha key, the enriched article handed to db.save,
and (as specification bookkeeping) the citation titles merged into the
counter for this document. -/
structure Saved where
  sha : String
  article : Article
  cites : List String
deriving DecidableEq

/-- The Run State of Execute.run: processed id set, processed hash set, the
citation counter (as the multiset of counted titles, in merge order), and the
ordered list of sink save calls. -/
structure RunState where
  ids : List String
  hashes : List String
  citations : List String
  saves : List Saved
deriving DecidableEq

/-- Python truthiness of the optional tags string. -/
def truthy : Option String → Bool
  | none => false
  | some s => s ≠ ""

/-- The empty Run State of a fresh run. -/
def initState : RunState := ⟨[], [], [], []⟩

/-- One iteration of the consumer loop of Execute.run on a consumed result.
Acceptance requires a fresh uid, a fresh sha, and (tags or a full load); the
entry-date lookup `dates[sha]` happens first inside the accept branch and a
miss raises (the KeyError), modelled as `Except.error`. `Counter.update`
with `None` is a no-op, hence `cites.getD []`. -/
def Execute.step (full : Bool) (dates : String → Option String) (s : RunState) (r : Result) :
    Except String RunState :=
  if r.article.uid ∉ s.ids ∧ r.sha ∉ s.hashes ∧ (full = true ∨ truthy r.article.tags = true) then
    match dates r.sha with
    | none => Except.error r.sha
    | some d =>
      Except.ok
        { ids := s.ids ++ [r.article.uid]
          hashes := s.hashes ++ [r.sha]
          citations := s.citations ++ r.cites.getD []
          saves := s.saves ++ [⟨r.sha, { r.article with entry := some d }, r.cites.getD []⟩] }
  else Except.ok s

/-- The consumer loop of Execute.run over the ordered result stream. A raised
KeyError aborts the loop: the final pair carries the Run State frozen at the
failure point and the offending sha; db.complete is never reached then. -/
def Execute.runLoop (full : Bool) (dates : String → Option String) :
    RunState → List Result → RunState × Option String
  | s, [] => (s, none)
  | s, r :: rest =>
    match Execute.step full dates s r with
    | Except.ok s2 => Execute.runLoop full dates s2 rest
    | Except.error e => (s, some e)

/-- Execute.run on an in-order result stream: process each row of
metadata.csv in file order and fold the accept / reject decision. -/
def Execute.run (env : Env) (full : Bool) (dates : String → Option String) (dir : String)
    (rows : List Row) : RunState × Option String :=
  Execute.runLoop full dates initState (rows.map (Execute.process env dir))

/-- Execute.entryDates: the entry-date csv loaded into a dict (a later row
with the same sha overwrites an earlier one). -/
def Execute.entryDates (tbl : List (String × String)) : String → Option String :=
  fun sha => tbl.foldl (fun acc kv => if kv.1 = sha then some kv.2 else acc) none

/-- The citation flush of db.complete: only reached when the loop finishes
without a raised error; each counted title with its mention count. -/
def Execute.flush (res : RunState × Option String) : Option (List (String × Nat)) :=
  match res.2 with
  | none => some (res.1.citations.dedup.map (fun t => (t, res.1.citations.count t)))
  | some _ => none

/-! ## The parallel pool, as an ordered fan-in over worker completions -/

/-- Association lookup on completion records keyed by submission index. -/
def lookupNat {α : Type} (i : Nat) : List (Nat × α) → Option α
  | [] => none
  | (j, r) :: rest => if j = i then some r else lookupNat i rest

/-- Worker completions: the pool finishes the submitted jobs in an arbitrary
arrival order; each completion carries its submission index. -/
def completionsOf {α : Type} (results : List α) (arrival : List Nat) : List (Nat × α) :=
  arrival.filterMap (fun i => (results[i]?).map (fun r => (i, r)))

/-- The ordered collection discipline of pool.imap: results are released to
the consumer in submission-index order, whatever the arrival order was. -/
def orderedFanIn {α : Type} (n : Nat) (pairs : List (Nat × α)) : List α :=
  (List.range n).filterMap (fun i => lookupNat i pairs)

/-- Execute.run with the worker pool made explicit: rows are processed by
workers completing in `arrival` order and consumed through the ordered
fan-in of pool.imap. -/
def Execute.parallelRun (env : Env) (full : Bool) (dates : String → Option String)
    (dir : String) (rows : List Row) (arrival : List Nat) : RunState × Option String :=
  Execute.runLoop full dates initState
    (orderedFanIn rows.length (completionsOf (rows.map (Execute.process env dir)) arrival))

/-! ## Spec-side reformulation for the section post-filter claim -/

/-- Modelled from the spec: keep a section iff its text contains no
boilerplate fragment and no earlier section of the record has exactly the
same text (`seen` is the texts of all earlier sections). -/
def filteredBySpec (seen : List String) :
    List (Option String × String) → List (Option String × String)
  | [] => []
  | (n, t) :: rest =>
    if hasBoiler t = false ∧ t ∉ seen then (n, t) :: filteredBySpec (t :: seen) rest
    else filteredBySpec (t :: seen) rest

/-- The loop invariant of Execute.run theorems: the id set and the hash set
are exactly the keys of the saved documents, the counter is exactly the
merge of the saved documents citation lists, both key lists are duplicate
free, and every saved document carries the entry date the lookup table holds
for its sha. -/
def RunInv (dates : String → Option String) (s : RunState) : Prop :=
  s.ids = s.saves.map (fun d => d.article.uid) ∧
  s.hashes = s.saves.map (fun d => d.sha) ∧
  s.citations = s.saves.flatMap (fun d => d.cites) ∧
  s.ids.Nodup ∧ s.hashes.Nodup ∧
  (∀ d ∈ s.saves, d.article.entry = dates d.sha ∧ d.article.entry ≠ none)

/-! ## Concrete fixtures used by witness and counterexample theorems -/

/-- A concrete test environment with one readable companion file. -/
def envT : Env :=
  { read := fun p =>
      if p = "dir/f1.json" then
        some ⟨[("methods", "body text")], [("TAB1", some "<x>")], ["T1", "T1", "T2"]⟩
      else none
    transform := fun s => s
    sentTok := fun t => [t]
    tableParse := fun _ => ["trow"]
    parse := fun s =>
      if s = "2020-03-01" then some ⟨2020, 3, 1⟩
      else if s = "2018-05-02" then some ⟨2018, 5, 2⟩
      else if s = "1999-01-01" then some ⟨1999, 1, 1⟩
      else none
    km := fun t => containsSub t "covid"
    annotate := fun ss => ss.map (fun _ => some "LBL")
    study := fun _ => (some "D", none, none, none) }

/-- A test environment whose filesystem has no readable files. -/
def envNone : Env :=
  { read := fun _ => none
    transform := fun s => s
    sentTok := fun t => [t]
    tableParse := fun _ => []
    parse := fun _ => none
    km := fun _ => false
    annotate := fun _ => []
    study := fun _ => (none, none, none, none) }

/-- A row with every field empty. -/
def rowBase : Row := ⟨"", "", "", "", "", "", "", "", "", "", "", ""⟩

/-- A recent, keyword-matching row with a companion file. -/
def rowTagged : Row :=
  { rowBase with cord_uid := "uidA", sha := "shaA", title := "covid study",
                 publish_time := "2020-03-01", pdf_json_files := "f1.json" }

/-- A keyword-matching row with an unknown publish date. -/
def rowUnknown : Row :=
  { rowBase with cord_uid := "uidC", sha := "shaC", title := "covid stuff" }

/-- A keyword-matching row dated before the cutoff. -/
def rowOld : Row :=
  { rowBase with cord_uid := "uidB", sha := "shaB", title := "covid early",
                 publish_time := "2018-05-02" }

/-- An untagged row whose companion file carries citation titles. -/
def rowUntagged : Row :=
  { rowBase with cord_uid := "uidU", sha := "shaU", title := "plain title",
                 pdf_json_files := "f1.json" }

/-- A row with no pre-supplied hash and no title. -/
def rowNoSha : Row := { rowBase with cord_uid := "uidE" }

/-- A row whose publish date is a bare 4-digit year. -/
def rowYear : Row := { rowBase with cord_uid := "uidY", publish_time := "1999" }

/-- A concrete entry-date table covering the fixture hashes. -/
def datesT : String → Option String :=
  Execute.entryDates
    [("shaA", "2020-05-01"), ("shaB", "2020-05-01"), ("shaC", "2020-05-02"),
     ("shaU", "2020-05-03")]

/-- An entry-date table that misses every hash. -/
def datesNone : String → Option String := fun _ => none

/-- A concrete tagged article used to exercise the consumer loop directly. -/
def artA : Article :=
  ⟨⟨"uidA", "s", none, "", "", "tA", some "COVID-19", none, none, none, none, "r"⟩, [], none⟩

/-- A concrete processed result with hash shaA. -/
def resA : Result := ⟨"shaA", artA, some ["T"]⟩

/-- A concrete tagged article whose hash the entry-date table misses. -/
def artM : Article :=
  ⟨⟨"uidM", "s", none, "", "", "tM", some "COVID-19", none, none, none, none, "r"⟩, [], none⟩

/-- A concrete processed result with hash shaM. -/
def resM : Result := ⟨"shaM", artM, some ["X"]⟩

/-- A run state that already accepted uidA / shaA. -/
def stDup : RunState := ⟨["uidA"], ["shaA"], [], []⟩

/-! ## Theorems -/

set_option maxRecDepth 8000 in
/-- Sanity vector: the embedded SHA-1 agrees with hashlib on the empty string. -/
theorem sha1Hex_empty_vector :
    sha1Hex (utf8Encode "") = "da39a3ee5e6b4b0d3255bfef95601890afd80709" := by
  decide

set_option maxRecDepth 8000 in
/-- Sanity vector: the embedded SHA-1 agrees with hashlib on "abc". -/
theorem sha1Hex_abc_vector :
    sha1Hex (utf8Encode "abc") = "a9993e364706816aba3e25717850c26c9cd0d89d" := by
  decide

/-- The source accumulation loop equals the spec-side first-occurrence filter,
whenever the key set holds exactly the earlier non-boilerplate texts. -/
theorem filteredLoop_eq_spec :
    ∀ (l : List (Option String × String)) (unique : List (Option String × String))
      (keys seen : List String),
      (∀ t, t ∈ keys ↔ (t ∈ seen ∧ hasBoiler t = false)) →
      Section.filteredLoop unique keys l = unique ++ filteredBySpec seen l
  | [], unique, keys, seen, _ => by
    simp [Section.filteredLoop, filteredBySpec]
  | (n, t) :: rest, unique, keys, seen, hkeys => by
    by_cases hb : hasBoiler t = false
    · by_cases hs : t ∈ seen
      · have htk : t ∈ keys := (hkeys t).mpr ⟨hs, hb⟩
        have hcond : ¬(t ∉ keys ∧ hasBoiler t = false) := fun hc => hc.1 htk
        have hspec : ¬(hasBoiler t = false ∧ t ∉ seen) := fun hc => hc.2 hs
        rw [Section.filteredLoop, if_neg hcond, filteredBySpec, if_neg hspec]
        refine filteredLoop_eq_spec rest unique keys (t :: seen) (fun u => ?_)
        constructor
        · intro hu
          rcases (hkeys u).mp hu with ⟨h1, h2⟩
          exact ⟨List.mem_cons_of_mem _ h1, h2⟩
        · rintro ⟨h1, h2⟩
          rcases List.mem_cons.mp h1 with h | h
          · subst h; exact htk
          · exact (hkeys u).mpr ⟨h, h2⟩
      · have htk : t ∉ keys := fun hmem => hs ((hkeys t).mp hmem).1
        have hcond : t ∉ keys ∧ hasBoiler t = false := ⟨htk, hb⟩
        have hspec : hasBoiler t = false ∧ t ∉ seen := ⟨hb, hs⟩
        rw [Section.filteredLoop, if_pos hcond, filteredBySpec, if_pos hspec]
        rw [filteredLoop_eq_spec rest (unique ++ [(n, t)]) (t :: keys) (t :: seen) ?_]
        · simp
        · intro u
          constructor
          · intro hu
            rcases List.mem_cons.mp hu with h | h
            · subst h; exact ⟨List.mem_cons_self _ _, hb⟩
            · rcases (hkeys u).mp h with ⟨h1, h2⟩
              exact ⟨List.mem_cons_of_mem _ h1, h2⟩
          · rintro ⟨h1, h2⟩
            rcases List.mem_cons.mp h1 with h | h
            · subst h; exact List.mem_cons_self _ _
            · exact List.mem_cons_of_mem _ ((hkeys u).mpr ⟨h, h2⟩)
    · have hcond : ¬(t ∉ keys ∧ hasBoiler t = false) := fun hc => hb hc.2
      have hspec : ¬(hasBoiler t = false ∧ t ∉ seen) := fun hc => hb hc.1
      rw [Section.filteredLoop, if_neg hcond, filteredBySpec, if_neg hspec]
      refine filteredLoop_eq_spec rest unique keys (t :: seen) (fun u => ?_)
      constructor
      · intro hu
        rcases (hkeys u).mp hu with ⟨h1, h2⟩
        exact ⟨List.mem_cons_of_mem _ h1, h2⟩
      · rintro ⟨h1, h2⟩
        rcases List.mem_cons.mp h1 with h | h
        · subst h; exact absurd h2 hb
        · exact (hkeys u).mpr ⟨h, h2⟩

/-- The spec-side filter output is a sublist of its input (order preserved). -/
theorem filteredBySpec_sublist :
    ∀ (l : List (Option String × String)) (seen : List String),
      (filteredBySpec seen l).Sublist l
  | [], _ => List.Sublist.refl _
  | (n, t) :: rest, seen => by
    rw [filteredBySpec]
    by_cases hc : hasBoiler t = false ∧ t ∉ seen
    · rw [if_pos hc]
      exact List.Sublist.cons₂ _ (filteredBySpec_sublist rest (t :: seen))
    · rw [if_neg hc]
      exact List.Sublist.cons _ (filteredBySpec_sublist rest (t :: seen))

/-- No surviving section contains boilerplate. -/
theorem filteredBySpec_boiler :
    ∀ (l : List (Option String × String)) (seen : List String)
      (s : Option String × String), s ∈ filteredBySpec seen l → hasBoiler s.2 = false
  | [], _, _, h => by simp [filteredBySpec] at h
  | (n, t) :: rest, seen, s, h => by
    rw [filteredBySpec] at h
    by_cases hc : hasBoiler t = false ∧ t ∉ seen
    · rw [if_pos hc] at h
      rcases List.mem_cons.mp h with h' | h'
      · subst h'; exact hc.1
      · exact filteredBySpec_boiler rest (t :: seen) s h'
    · rw [if_neg hc] at h
      exact filteredBySpec_boiler rest (t :: seen) s h

/-- The text of a surviving section was not among the earlier texts. -/
theorem filteredBySpec_notSeen :
    ∀ (l : List (Option String × String)) (seen : List String)
      (s : Option String × String), s ∈ filteredBySpec seen l → s.2 ∉ seen
  | [], _, _, h => by simp [filteredBySpec] at h
  | (n, t) :: rest, seen, s, h => by
    rw [filteredBySpec] at h
    by_cases hc : hasBoiler t = false ∧ t ∉ seen
    · rw [if_pos hc] at h
      rcases List.mem_cons.mp h with h' | h'
      · subst h'; exact hc.2
      · intro hmem
        exact filteredBySpec_notSeen rest (t :: seen) s h' (List.mem_cons_of_mem _ hmem)
    · rw [if_neg hc] at h
      intro hmem
      exact filteredBySpec_notSeen rest (t :: seen) s h (List.mem_cons_of_mem _ hmem)

/-- Surviving texts are pairwise distinct. -/
theorem filteredBySpec_nodup :
    ∀ (l : List (Option String × String)) (seen : List String),
      ((filteredBySpec seen l).map Prod.snd).Nodup
  | [], _ => by simp [filteredBySpec]
  | (n, t) :: rest, seen => by
    rw [filteredBySpec]
    by_cases hc : hasBoiler t = false ∧ t ∉ seen
    · rw [if_pos hc]
      refine List.Nodup.cons (fun hmem => ?_) (filteredBySpec_nodup rest (t :: seen))
      rcases List.mem_map.mp hmem with ⟨s, hs, hsnd⟩
      exact filteredBySpec_notSeen rest (t :: seen) s hs (hsnd ▸ List.mem_cons_self _ _)
    · rw [if_neg hc]
      exact filteredBySpec_nodup rest (t :: seen)

/-- C5: Section.filtered keeps only the first section bearing each exact text,
drops every section whose text contains a boilerplate fragment as a
case-sensitive substring, preserves the relative order of the survivors
(sublist of the input), and returns the citation titles deduplicated via a
set (duplicate-free, same membership). -/
theorem claim_section_filtered (sections : List (Option String × String))
    (citations : List String) :
    (Section.filtered sections citations).1 = filteredBySpec [] sections ∧
    (Section.filtered sections citations).1.Sublist sections ∧
    (∀ s ∈ (Section.filtered sections citations).1, hasBoiler s.2 = false) ∧
    ((Section.filtered sections citations).1.map Prod.snd).Nodup ∧
    (Section.filtered sections citations).2.Nodup ∧
    (∀ t, t ∈ (Section.filtered sections citations).2 ↔ t ∈ citations) := by
  have hmain : (Section.filtered sections citations).1 = filteredBySpec [] sections := by
    show Section.filteredLoop [] [] sections = filteredBySpec [] sections
    have := filteredLoop_eq_spec sections [] [] [] (by simp)
    simpa using this
  refine ⟨hmain, ?_, ?_, ?_, ?_, ?_⟩
  · rw [hmain]; exact filteredBySpec_sublist sections []
  · rw [hmain]; exact fun s hs => filteredBySpec_boiler sections [] s hs
  · rw [hmain]; exact filteredBySpec_nodup sections []
  · exact citations.nodup_dedup
  · intro t; exact List.mem_dedup

/-- Witness for C5 at a concrete record: a repeated text and a boilerplate
text are dropped, the first occurrence survives. -/
theorem claim_section_filtered_witness :
    (Section.filtered [(some "A", "x"), (some "B", "x"), (some "C", "the WHO COVID database entry")]
        ["c", "c"]).1
      = filteredBySpec [] [(some "A", "x"), (some "B", "x"), (some "C", "the WHO COVID database entry")] :=
  (claim_section_filtered
    [(some "A", "x"), (some "B", "x"), (some "C", "the WHO COVID database entry")] ["c", "c"]).1

/-- Filtering out a path whose file is unreadable changes no section
contribution. -/
theorem contribs_dead_fst (env : Env) (dir : String) (p : String)
    (hp : env.read (pathJoin dir p) = none) :
    ∀ paths : List String,
      (((paths.filter (fun q => ! decide (q = p))).map (fileContrib env dir)).flatMap Prod.fst)
        = ((paths.map (fileContrib env dir)).flatMap Prod.fst)
  | [] => rfl
  | q :: rest => by
    by_cases hq : q = p
    · subst hq
      have hdead : fileContrib env dir q = ([], []) := by
        unfold fileContrib
        rw [hp]
      simp only [List.filter_cons, decide_eq_true_eq, hdead]
      simp [contribs_dead_fst env dir q hp rest, hdead]
    · simp only [List.filter_cons]
      simp [hq, contribs_dead_fst env dir p hp rest]

/-- Filtering out a path whose file is unreadable changes no citation
contribution. -/
theorem contribs_dead_snd (env : Env) (dir : String) (p : String)
    (hp : env.read (pathJoin dir p) = none) :
    ∀ paths : List String,
      (((paths.filter (fun q => ! decide (q = p))).map (fileContrib env dir)).flatMap Prod.snd)
        = ((paths.map (fileContrib env dir)).flatMap Prod.snd)
  | [] => rfl
  | q :: rest => by
    by_cases hq : q = p
    · subst hq
      have hdead : fileContrib env dir q = ([], []) := by
        unfold fileContrib
        rw [hp]
      simp only [List.filter_cons, decide_eq_true_eq, hdead]
      simp [contribs_dead_snd env dir q hp rest, hdead]
    · simp only [List.filter_cons]
      simp [hq, contribs_dead_snd env dir p hp rest]

/-- When every companion file of a path list is unreadable, nothing is
contributed. -/
theorem contribs_all_dead (env : Env) (dir : String) :
    ∀ paths : List String, (∀ q ∈ paths, env.read (pathJoin dir q) = none) →
      ((paths.map (fileContrib env dir)).flatMap Prod.fst) = [] ∧
      ((paths.map (fileContrib env dir)).flatMap Prod.snd) = []
  | [], _ => ⟨rfl, rfl⟩
  | q :: rest, hall => by
    have hdead : fileContrib env dir q = ([], []) := by
      unfold fileContrib
      rw [hall q (List.mem_cons_self _ _)]
    have ih := contribs_all_dead env dir rest (fun x hx => hall x (List.mem_cons_of_mem _ hx))
    simp [hdead, ih.1, ih.2]

/-- C9: a missing or unreadable companion file is non-fatal and contributes
nothing: extraction over a path list equals extraction with the unreadable
path removed, Section.parse is exactly extraction over the path list of the
row (so the title/abstract sections and the sections of the other files
survive), and
if every companion file is unreadable the result is just the filtered
title/abstract sections with no citations. Extraction is a total function,
so no exception propagates to the caller. -/
theorem claim_missing_file_nonfatal (env : Env) (dir : String) (row : Row) :
    (∀ (paths : List String) (p : String), env.read (pathJoin dir p) = none →
      Section.parseFrom env dir row paths
        = Section.parseFrom env dir row (paths.filter (fun q => ! decide (q = p)))) ∧
    Section.parse env dir row = Section.parseFrom env dir row (Section.files row) ∧
    ((Section.files row).all (fun q => (env.read (pathJoin dir q)).isNone) = true →
      Section.parse env dir row = Section.filtered (titleAbstractSections env row) []) := by
  refine ⟨?_, rfl, ?_⟩
  · intro paths p hp
    unfold Section.parseFrom
    rw [contribs_dead_fst env dir p hp paths, contribs_dead_snd env dir p hp paths]
  · intro hall
    have hall' : ∀ q ∈ Section.files row, env.read (pathJoin dir q) = none := by
      intro q hq
      have := List.all_eq_true.mp hall q hq
      exact Option.isNone_iff_eq_none.mp this
    have h := contribs_all_dead env dir (Section.files row) hall'
    show Section.parseFrom env dir row (Section.files row) = _
    unfold Section.parseFrom
    rw [h.1, h.2, List.append_nil]

/-- Witness for C9: with a filesystem where every read fails, a row with a
companion path still yields its title section and no citations. -/
theorem claim_missing_file_nonfatal_witness :
    Section.parse envNone "dir" rowTagged
      = Section.filtered (titleAbstractSections envNone rowTagged) [] :=
  (claim_missing_file_nonfatal envNone "dir" rowTagged).2.2 (by decide)

/-- The tag stored by Execute.process is the date-gated keyword decision. -/
theorem process_tags_eq (env : Env) (dir : String) (row : Row) :
    (Execute.process env dir row).article.tags
      = (if scanOk (Execute.getDate env.parse row) then
           Execute.getTags env.km (Section.parse env dir row).1
         else none) := rfl

/-- Execute.getTags yields none exactly when no section text matches. -/
theorem getTags_eq_none_iff (km : String → Bool) :
    ∀ ss : List (Option String × String),
      Execute.getTags km ss = none ↔ ∀ x ∈ ss, km x.2 = false
  | [] => by simp [Execute.getTags]
  | (n, t) :: rest => by
    rw [Execute.getTags]
    by_cases hk : km t = true
    · simp only [if_pos hk]
      constructor
      · intro h; exact absurd h (by simp)
      · intro h
        have := h (n, t) (List.mem_cons_self _ _)
        rw [hk] at this
        exact absurd this (by simp)
    · have hk' : km t = false := by
        cases h : km t
        · rfl
        · exact absurd h hk
      simp only [if_neg hk]
      rw [getTags_eq_none_iff km rest]
      constructor
      · intro h x hx
        rcases List.mem_cons.mp hx with h' | h'
        · subst h'; exact hk'
        · exact h x h'
      · intro h x hx
        exact h x (List.mem_cons_of_mem _ hx)

/-- Execute.getTags short-circuits: the first matching section in document
order decides, whatever follows it. -/
theorem getTags_first_match (km : String → Bool) :
    ∀ (pre : List (Option String × String)) (s : Option String × String)
      (post : List (Option String × String)),
      (∀ x ∈ pre, km x.2 = false) → km s.2 = true →
      Execute.getTags km (pre ++ s :: post) = some "COVID-19"
  | [], s, post, _, hs => by
    obtain ⟨n, t⟩ := s
    simp only [List.nil_append]
    rw [Execute.getTags, if_pos hs]
  | (n0, t0) :: pre, s, post, hpre, hs => by
    have h0 : km t0 = false := hpre (n0, t0) (List.mem_cons_self _ _)
    rw [List.cons_append, Execute.getTags, if_neg (by simp [h0])]
    exact getTags_first_match km pre s post
      (fun x hx => hpre x (List.mem_cons_of_mem _ hx)) hs

/-- C6: a record with a known date strictly before the mid-2019 cutoff is
never tagged, whatever its text; a record with unknown date, or a date at or
after the cutoff, gets the keyword decision over its extracted sections,
which returns the single fixed tag at the first matching section in document
order (independent of everything after the match) and none exactly when no
section matches. -/
theorem claim_tag_classifier (env : Env) (dir : String) (row : Row) :
    (∀ d : Date, Execute.getDate env.parse row = some d → Date.lt d cutoff = true →
      (Execute.process env dir row).article.tags = none) ∧
    ((Execute.getDate env.parse row = none ∨
      (∃ d : Date, Execute.getDate env.parse row = some d ∧ Date.le cutoff d = true)) →
      (Execute.process env dir row).article.tags
        = Execute.getTags env.km (Section.parse env dir row).1) ∧
    (∀ (km : String → Bool) (pre : List (Option String × String))
       (s : Option String × String) (post : List (Option String × String)),
      (∀ x ∈ pre, km x.2 = false) → km s.2 = true →
      Execute.getTags km (pre ++ s :: post) = some "COVID-19") ∧
    (∀ ss : List (Option String × String),
      Execute.getTags env.km ss = none ↔ ∀ x ∈ ss, env.km x.2 = false) := by
  refine ⟨?_, ?_, getTags_first_match, getTags_eq_none_iff env.km⟩
  · intro d hd hlt
    rw [process_tags_eq, hd]
    have hle : Date.le cutoff d = false := by
      have : (! Date.le cutoff d) = true := hlt
      cases h : Date.le cutoff d
      · rfl
      · rw [h] at this; exact absurd this (by simp)
    simp [scanOk, hle]
  · intro h
    rw [process_tags_eq]
    rcases h with h | ⟨d, hd, hle⟩
    · rw [h]; rfl
    · rw [hd]
      simp [scanOk, hle]

/-- Witness for C6: a keyword-matching record dated 2018 stays untagged, and
a keyword-matching record with unknown date gets the keyword decision. -/
theorem claim_tag_classifier_witness :
    (Execute.process envT "dir" rowOld).article.tags = none ∧
    (Execute.process envT "dir" rowUnknown).article.tags
      = Execute.getTags envT.km (Section.parse envT "dir" rowUnknown).1 :=
  ⟨(claim_tag_classifier envT "dir" rowOld).1 ⟨2018, 5, 2⟩ (by decide) (by decide),
   (claim_tag_classifier envT "dir" rowUnknown).2.1 (Or.inl (by decide))⟩

/-- C7: date resolution. Empty input yields unknown; non-empty input is
handed to the free-form parser, with a bare 4-digit year first padded to
January 1 (so whenever the parser resolves the padded string to January 1 of
that year, so does getDate); a parser failure is swallowed and yields
unknown. getDate is a total function, so it never raises to its caller. -/
theorem claim_date_resolver (p : String → Option Date) (row : Row) :
    (row.publish_time = "" → Execute.getDate p row = none) ∧
    (row.publish_time ≠ "" → Execute.getDate p row = p (effDate row.publish_time)) ∧
    (isYear4 row.publish_time = true →
      p (row.publish_time ++ "-01-01") = some ⟨digitsToNat row.publish_time, 1, 1⟩ →
      Execute.getDate p row = some ⟨digitsToNat row.publish_time, 1, 1⟩) ∧
    (p (effDate row.publish_time) = none → Execute.getDate p row = none) := by
  refine ⟨?_, ?_, ?_, ?_⟩
  · intro h
    unfold Execute.getDate
    rw [if_neg (by simp [h])]
  · intro h
    unfold Execute.getDate
    rw [if_pos h]
  · intro h4 hp
    have hne : row.publish_time ≠ "" := by
      intro h0
      rw [h0] at h4
      exact absurd h4 (by decide)
    unfold Execute.getDate
    rw [if_pos hne]
    unfold effDate
    rw [if_pos h4]
    exact hp
  · intro hp
    unfold Execute.getDate
    by_cases hne : row.publish_time ≠ ""
    · rw [if_pos hne]; exact hp
    · rw [if_neg hne]

/-- Witness for C7: the 4-digit year 1999 resolves to January 1, 1999 under a
parser that resolves the padded ISO string. -/
theorem claim_date_resolver_witness :
    Execute.getDate envT.parse rowYear = some ⟨1999, 1, 1⟩ :=
  (claim_date_resolver envT.parse rowYear).2.2.1 (by decide) (by decide)

/-- C8: the identity hash is the first element of the semicolon-delimited
pre-supplied hash field when the field and that element are non-empty;
otherwise it is the SHA-1 hex digest of the UTF-8 encoded title; a row with
no supplied hash and no title hashes the empty string. getHash is a total
function, so it never fails. -/
theorem claim_identity_hash (row : Row) :
    (row.sha ≠ "" → firstSha row ≠ "" → Execute.getHash row = firstSha row) ∧
    ((row.sha = "" ∨ firstSha row = "") →
      Execute.getHash row = sha1Hex (utf8Encode row.title)) ∧
    (row.sha = "" → row.title = "" → Execute.getHash row = sha1Hex (utf8Encode "")) := by
  have h2 : (row.sha = "" ∨ firstSha row = "") →
      Execute.getHash row = sha1Hex (utf8Encode row.title) := by
    intro h
    unfold Execute.getHash
    have hs0 : (if row.sha ≠ "" then firstSha row else "") = "" := by
      rcases h with h | h
      · simp [h]
      · by_cases hs : row.sha ≠ ""
        · rw [if_pos hs]; exact h
        · rw [if_neg hs]
    rw [hs0]
    simp
  refine ⟨?_, h2, ?_⟩
  · intro hs hf
    unfold Execute.getHash
    rw [if_pos hs, if_pos hf]
  · intro hs ht
    rw [h2 (Or.inl hs), ht]

/-- Witness for C8: a row with no supplied hash and no title gets the digest
of the empty string. -/
theorem claim_identity_hash_witness :
    Execute.getHash rowNoSha = sha1Hex (utf8Encode "") :=
  (claim_identity_hash rowNoSha).2.2 (by decide) (by decide)

/-- A consumed result that fails the acceptance test leaves the Run State
untouched. -/
theorem step_frame (full : Bool) (dates : String → Option String) (s : RunState) (r : Result)
    (h : ¬(r.article.uid ∉ s.ids ∧ r.sha ∉ s.hashes ∧
           (full = true ∨ truthy r.article.tags = true))) :
    Execute.step full dates s r = Except.ok s := by
  unfold Execute.step
  rw [if_neg h]

/-- The accept branch of the consumer loop, when the entry-date lookup hits. -/
theorem step_accept (full : Bool) (dates : String → Option String) (s : RunState) (r : Result)
    (d : String)
    (hc : r.article.uid ∉ s.ids ∧ r.sha ∉ s.hashes ∧
          (full = true ∨ truthy r.article.tags = true))
    (hd : dates r.sha = some d) :
    Execute.step full dates s r = Except.ok
      { ids := s.ids ++ [r.article.uid]
        hashes := s.hashes ++ [r.sha]
        citations := s.citations ++ r.cites.getD []
        saves := s.saves ++ [⟨r.sha, { r.article with entry := some d }, r.cites.getD []⟩] } := by
  unfold Execute.step
  rw [if_pos hc, hd]

/-- The accept branch raises when the entry-date lookup misses. -/
theorem step_miss (full : Bool) (dates : String → Option String) (s : RunState) (r : Result)
    (hc : r.article.uid ∉ s.ids ∧ r.sha ∉ s.hashes ∧
          (full = true ∨ truthy r.article.tags = true))
    (hd : dates r.sha = none) :
    Execute.step full dates s r = Except.error r.sha := by
  unfold Execute.step
  rw [if_pos hc, hd]

/-- One accepted step only appends to the save list. -/
theorem step_saves_extend (full : Bool) (dates : String → Option String) (s : RunState)
    (r : Result) (s2 : RunState) (h : Execute.step full dates s r = Except.ok s2) :
    ∃ ext, s2.saves = s.saves ++ ext := by
  by_cases hc : r.article.uid ∉ s.ids ∧ r.sha ∉ s.hashes ∧
      (full = true ∨ truthy r.article.tags = true)
  · cases hd : dates r.sha with
    | none =>
      rw [step_miss full dates s r hc hd] at h
      exact absurd h (by simp)
    | some d =>
      rw [step_accept full dates s r d hc hd] at h
      injection h with h
      exact ⟨_, by rw [← h]⟩
  · rw [step_frame full dates s r hc] at h
    injection h with h
    exact ⟨[], by rw [← h, List.append_nil]⟩

/-- The consumer loop only appends to the save list. -/
theorem runLoop_saves_extend (full : Bool) (dates : String → Option String) :
    ∀ (l : List Result) (s : RunState),
      ∃ ext, (Execute.runLoop full dates s l).1.saves = s.saves ++ ext
  | [], s => ⟨[], by simp [Execute.runLoop]⟩
  | r :: rest, s => by
    rw [Execute.runLoop]
    cases hstep : Execute.step full dates s r with
    | ok s2 =>
      obtain ⟨e1, he1⟩ := step_saves_extend full dates s r s2 hstep
      obtain ⟨e2, he2⟩ := runLoop_saves_extend full dates rest s2
      exact ⟨e1 ++ e2, by rw [he2, he1, List.append_assoc]⟩
    | error e => exact ⟨[], by simp⟩

/-- Splitting the consumed stream after a successful prefix. -/
theorem runLoop_append_ok (full : Bool) (dates : String → Option String) :
    ∀ (l1 : List Result) (s s1 : RunState) (l2 : List Result),
      Execute.runLoop full dates s l1 = (s1, none) →
      Execute.runLoop full dates s (l1 ++ l2) = Execute.runLoop full dates s1 l2
  | [], s, s1, l2, h => by
    rw [Execute.runLoop] at h
    injection h with h1 _
    rw [List.nil_append, h1]
  | r :: rest, s, s1, l2, h => by
    rw [Execute.runLoop] at h
    rw [List.cons_append, Execute.runLoop]
    cases hstep : Execute.step full dates s r with
    | ok s2 =>
      rw [hstep] at h
      exact runLoop_append_ok full dates rest s2 s1 l2 h
    | error e =>
      rw [hstep] at h
      exact absurd h (by simp)

/-- Splitting the consumed stream after a failing prefix: the error is final. -/
theorem runLoop_append_err (full : Bool) (dates : String → Option String) :
    ∀ (l1 : List Result) (s s1 : RunState) (e : String) (l2 : List Result),
      Execute.runLoop full dates s l1 = (s1, some e) →
      Execute.runLoop full dates s (l1 ++ l2) = (s1, some e)
  | [], s, s1, e, l2, h => by
    rw [Execute.runLoop] at h
    exact absurd h (by simp)
  | r :: rest, s, s1, e, l2, h => by
    rw [Execute.runLoop] at h
    rw [List.cons_append, Execute.runLoop]
    cases hstep : Execute.step full dates s r with
    | ok s2 =>
      rw [hstep] at h
      exact runLoop_append_err full dates rest s2 s1 e l2 h
    | error e0 =>
      rw [hstep] at h
      have h' : (s, (some e0 : Option String)) = (s1, some e) := h
      exact h'

/-- The empty Run State satisfies the run invariant. -/
theorem RunInv_init (dates : String → Option String) : RunInv dates initState := by
  refine ⟨rfl, rfl, rfl, List.nodup_nil, List.nodup_nil, ?_⟩
  intro d hd
  exact absurd hd (List.not_mem_nil d)

/-- One consumer step preserves the run invariant. -/
theorem step_RunInv (full : Bool) (dates : String → Option String) (s : RunState) (r : Result)
    (s2 : RunState) (hInv : RunInv dates s) (h : Execute.step full dates s r = Except.ok s2) :
    RunInv dates s2 := by
  by_cases hc : r.article.uid ∉ s.ids ∧ r.sha ∉ s.hashes ∧
      (full = true ∨ truthy r.article.tags = true)
  · cases hd : dates r.sha with
    | none =>
      rw [step_miss full dates s r hc hd] at h
      exact absurd h (by simp)
    | some d =>
      rw [step_accept full dates s r d hc hd] at h
      injection h with h
      obtain ⟨h1, h2, h3, h4, h5, h6⟩ := hInv
      subst h
      refine ⟨?_, ?_, ?_, ?_, ?_, ?_⟩
      · show s.ids ++ [r.article.uid] = _
        rw [List.map_append, ← h1]
        rfl
      · show s.hashes ++ [r.sha] = _
        rw [List.map_append, ← h2]
        rfl
      · show s.citations ++ r.cites.getD [] = _
        rw [List.flatMap_append, ← h3]
        simp
      · show (s.ids ++ [r.article.uid]).Nodup
        rw [List.nodup_append]
        exact ⟨h4, List.nodup_singleton _, by simpa using hc.1⟩
      · show (s.hashes ++ [r.sha]).Nodup
        rw [List.nodup_append]
        exact ⟨h5, List.nodup_singleton _, by simpa using hc.2.1⟩
      · intro d' hd'
        rcases List.mem_append.mp hd' with h' | h'
        · exact h6 d' h'
        · rcases List.mem_singleton.mp h' with h'
          subst h'
          exact ⟨by rw [hd], by simp⟩
  · rw [step_frame full dates s r hc] at h
    injection h with h
    rw [← h]
    exact hInv

/-- The consumer loop preserves the run invariant, also on an aborted run. -/
theorem runLoop_RunInv (full : Bool) (dates : String → Option String) :
    ∀ (l : List Result) (s : RunState), RunInv dates s →
      RunInv dates (Execute.runLoop full dates s l).1
  | [], s, hInv => hInv
  | r :: rest, s, hInv => by
    rw [Execute.runLoop]
    cases hstep : Execute.step full dates s r with
    | ok s2 => exact runLoop_RunInv full dates rest s2 (step_RunInv full dates s r s2 hInv hstep)
    | error e => exact hInv

/-- C1: dedup invariant of Execute.run. In the final Run State the id set and
hash set are exactly the keys of the accepted documents, both key lists are
duplicate free (so every accepted document had a fresh uid and a fresh sha
at the moment it was accepted, and both keys were recorded then), a consumed
candidate colliding with an already accepted id or hash leaves the whole run
as if it had not been consumed at all, and the save list only ever grows
(an earlier accepted document is never overwritten). -/
theorem claim_dedup_invariant (full : Bool) (dates : String → Option String)
    (results : List Result) :
    ((Execute.runLoop full dates initState results).1.ids
      = (Execute.runLoop full dates initState results).1.saves.map
          (fun d => d.article.uid)) ∧
    ((Execute.runLoop full dates initState results).1.hashes
      = (Execute.runLoop full dates initState results).1.saves.map (fun d => d.sha)) ∧
    ((Execute.runLoop full dates initState results).1.saves.map
        (fun d => d.article.uid)).Nodup ∧
    ((Execute.runLoop full dates initState results).1.saves.map (fun d => d.sha)).Nodup ∧
    (∀ (pre : List Result) (r : Result) (post : List Result),
      (Execute.runLoop full dates initState pre).2 = none →
      (r.article.uid ∈ (Execute.runLoop full dates initState pre).1.ids ∨
       r.sha ∈ (Execute.runLoop full dates initState pre).1.hashes) →
      Execute.runLoop full dates initState (pre ++ r :: post)
        = Execute.runLoop full dates initState (pre ++ post)) ∧
    (∀ (pre post : List Result), ∃ ext,
      (Execute.runLoop full dates initState (pre ++ post)).1.saves
        = (Execute.runLoop full dates initState pre).1.saves ++ ext) := by
  obtain ⟨h1, h2, h3, h4, h5, h6⟩ :=
    runLoop_RunInv full dates results initState (RunInv_init dates)
  refine ⟨h1, h2, ?_, ?_, ?_, ?_⟩
  · rw [← h1]; exact h4
  · rw [← h2]; exact h5
  · intro pre r post hok hcol
    have hpre : Execute.runLoop full dates initState pre
        = ((Execute.runLoop full dates initState pre).1, none) := by
      rw [← hok]
    rw [runLoop_append_ok full dates pre initState _ (r :: post) hpre,
        runLoop_append_ok full dates pre initState _ post hpre]
    rw [Execute.runLoop]
    have hrej : Execute.step full dates (Execute.runLoop full dates initState pre).1 r
        = Except.ok (Execute.runLoop full dates initState pre).1 := by
      apply step_frame
      rintro ⟨ha, hb, _⟩
      rcases hcol with h | h
      · exact ha h
      · exact hb h
    rw [hrej]
  · intro pre post
    cases hok : (Execute.runLoop full dates initState pre).2 with
    | none =>
      have hpre : Execute.runLoop full dates initState pre
          = ((Execute.runLoop full dates initState pre).1, none) := by
        rw [← hok]
      rw [runLoop_append_ok full dates pre initState _ post hpre]
      exact runLoop_saves_extend full dates post _
    | some e =>
      have hpre : Execute.runLoop full dates initState pre
          = ((Execute.runLoop full dates initState pre).1, some e) := by
        rw [← hok]
      rw [runLoop_append_err full dates pre initState _ e post hpre]
      exact ⟨[], by rw [List.append_nil]⟩

/-- Witness for C1: consuming the same result twice accepts it once; the
duplicate consumption leaves the run exactly as if it had not happened. -/
theorem claim_dedup_invariant_witness :
    Execute.runLoop true datesT initState ([resA] ++ resA :: [])
      = Execute.runLoop true datesT initState ([resA] ++ []) :=
  (claim_dedup_invariant true datesT []).2.2.2.2.1 [resA] resA [] (by decide) (by decide)

/-- C10: a consumed candidate that is rejected (already-seen uid, already-seen
hash, or untagged under the tagged-only policy) leaves the entire Run State
unchanged: the id set, the hash set, the citation counter, and the save list
keep their prior values, no entry date is appended, and no sink save call is
made for it. -/
theorem claim_rejected_frame (full : Bool) (dates : String → Option String) (s : RunState)
    (r : Result)
    (h : r.article.uid ∈ s.ids ∨ r.sha ∈ s.hashes ∨
         (full = false ∧ truthy r.article.tags = false)) :
    Execute.step full dates s r = Except.ok s := by
  apply step_frame
  rintro ⟨ha, hb, hc⟩
  rcases h with h | h | ⟨hf, ht⟩
  · exact ha h
  · exact hb h
  · rcases hc with hc | hc
    · rw [hf] at hc; exact absurd hc (by simp)
    · rw [ht] at hc; exact absurd hc (by simp)

/-- Witness for C10: a duplicate-uid candidate leaves a concrete non-empty
state untouched. -/
theorem claim_rejected_frame_witness :
    Execute.step true datesT stDup resA = Except.ok stDup :=
  claim_rejected_frame true datesT stDup resA (by decide)

/-- C4: if a consumed candidate passes dedup and the tag policy but its hash
misses the entry-date table, the run aborts at that candidate: the loop
output is the state reached so far together with the raised key, the failing
document is never among the saved ones, and every document that was saved
carries exactly the entry date the table holds for its hash (no record with
an undefined entry date is ever written). -/
theorem claim_entry_date_abort (full : Bool) (dates : String → Option String)
    (pre : List Result) (r : Result) (post : List Result)
    (hok : (Execute.runLoop full dates initState pre).2 = none)
    (hid : r.article.uid ∉ (Execute.runLoop full dates initState pre).1.ids)
    (hsha : r.sha ∉ (Execute.runLoop full dates initState pre).1.hashes)
    (hpol : full = true ∨ truthy r.article.tags = true)
    (hmiss : dates r.sha = none) :
    Execute.runLoop full dates initState (pre ++ r :: post)
      = ((Execute.runLoop full dates initState pre).1, some r.sha) ∧
    (∀ d ∈ (Execute.runLoop full dates initState (pre ++ r :: post)).1.saves,
      d.sha ≠ r.sha) ∧
    (∀ d ∈ (Execute.runLoop full dates initState (pre ++ r :: post)).1.saves,
      dates d.sha = d.article.entry ∧ d.article.entry ≠ none) := by
  have hpre : Execute.runLoop full dates initState pre
      = ((Execute.runLoop full dates initState pre).1, none) := by
    rw [← hok]
  have habort : Execute.runLoop full dates initState (pre ++ r :: post)
      = ((Execute.runLoop full dates initState pre).1, some r.sha) := by
    rw [runLoop_append_ok full dates pre initState _ (r :: post) hpre]
    rw [Execute.runLoop]
    rw [step_miss full dates _ r ⟨hid, hsha, hpol⟩ hmiss]
  obtain ⟨_, _, _, _, _, h6⟩ :=
    runLoop_RunInv full dates pre initState (RunInv_init dates)
  refine ⟨habort, ?_, ?_⟩
  · intro d hd
    rw [habort] at hd
    intro hcontr
    have := (h6 d hd).1
    rw [hcontr, hmiss] at this
    exact (h6 d hd).2 this
  · intro d hd
    rw [habort] at hd
    exact ⟨((h6 d hd).1).symm, (h6 d hd).2⟩

/-- Witness for C4: a fresh tagged candidate whose hash misses an empty
entry-date table aborts the run immediately with nothing saved. -/
theorem claim_entry_date_abort_witness :
    Execute.runLoop true datesNone initState ([] ++ resM :: []) = (initState, some "shaM") :=
  (claim_entry_date_abort true datesNone [] resM [] rfl (by decide) (by decide)
    (Or.inl rfl) rfl).1

/-- Execute.process clears the citations of an untagged record. -/
theorem process_untagged (env : Env) (dir : String) (row : Row)
    (h : (Execute.process env dir row).article.tags = none) :
    (Execute.process env dir row).cites = none := by
  simp only [Execute.process, Article.tags] at h ⊢
  rw [h]

/-- Through the consumer loop, a saved untagged document carries an empty
citation contribution, provided every consumed result has that property. -/
theorem runLoop_cites_tags (full : Bool) (dates : String → Option String) :
    ∀ (l : List Result) (s : RunState),
      (∀ r ∈ l, r.article.tags = none → r.cites = none) →
      (∀ d ∈ s.saves, d.article.tags = none → d.cites = []) →
      ∀ d ∈ (Execute.runLoop full dates s l).1.saves,
        d.article.tags = none → d.cites = []
  | [], _, _, hs => hs
  | r :: rest, s, hl, hs => by
    rw [Execute.runLoop]
    cases hstep : Execute.step full dates s r with
    | error e => exact hs
    | ok s2 =>
      refine runLoop_cites_tags full dates rest s2
        (fun x hx => hl x (List.mem_cons_of_mem _ hx)) ?_
      by_cases hc : r.article.uid ∉ s.ids ∧ r.sha ∉ s.hashes ∧
          (full = true ∨ truthy r.article.tags = true)
      · cases hd : dates r.sha with
        | none =>
          rw [step_miss full dates s r hc hd] at hstep
          exact absurd hstep (by simp)
        | some dd =>
          rw [step_accept full dates s r dd hc hd] at hstep
          injection hstep with hstep
          rw [← hstep]
          intro d hd' htags
          rcases List.mem_append.mp hd' with h' | h'
          · exact hs d h' htags
          · rcases List.mem_singleton.mp h' with h'
            subst h'
            have hrt : r.article.tags = none := htags
            have := hl r (List.mem_cons_self _ _) hrt
            show r.cites.getD [] = []
            rw [this]
            rfl
      · rw [step_frame full dates s r hc] at hstep
        injection hstep with hstep
        rw [← hstep]
        exact hs

/-- C3 as amended: the final citation counter is exactly the merge of the
citation contributions of the accepted documents; an accepted but untagged
document contributes nothing (its citations are cleared by the per-row
processing); and every counted title was contributed by some accepted
document, so a rejected or duplicate document never contributes. -/
theorem claim_citations_amended (env : Env) (full : Bool) (dates : String → Option String)
    (dir : String) (rows : List Row) :
    (Execute.run env full dates dir rows).1.citations
      = (Execute.run env full dates dir rows).1.saves.flatMap (fun d => d.cites) ∧
    (∀ d ∈ (Execute.run env full dates dir rows).1.saves,
      d.article.tags = none → d.cites = []) ∧
    (∀ t ∈ (Execute.run env full dates dir rows).1.citations,
      ∃ d ∈ (Execute.run env full dates dir rows).1.saves, t ∈ d.cites) := by
  unfold Execute.run
  obtain ⟨_, _, h3, _, _, _⟩ :=
    runLoop_RunInv full dates (rows.map (Execute.process env dir)) initState
      (RunInv_init dates)
  have h2 := runLoop_cites_tags full dates (rows.map (Execute.process env dir)) initState
    (fun r hr hrt => by
      obtain ⟨row, _, hrow⟩ := List.mem_map.mp hr
      rw [← hrow] at hrt ⊢
      exact process_untagged env dir row hrt)
    (fun d hd => absurd hd (List.not_mem_nil d))
  refine ⟨h3, h2, ?_⟩
  intro t ht
  rw [h3] at ht
  exact List.mem_flatMap.mp ht

/-- Witness for C3 (amended): a concrete one-row run where the counter equals
the merged citation lists of the accepted documents. -/
theorem claim_citations_amended_witness :
    (Execute.run envT true datesT "dir" [rowUntagged]).1.citations
      = (Execute.run envT true datesT "dir" [rowUntagged]).1.saves.flatMap
          (fun d => d.cites) :=
  (claim_citations_amended envT true datesT "dir" [rowUntagged]).1

set_option maxRecDepth 8000 in
/-- Counterexample to C3 as frozen: an untagged document accepted under a
full load drew the citation titles T1, T2 from its companion full-text file,
yet the final citation counter is empty — citations of accepted untagged
candidates are not tallied. -/
theorem claim_citations_counterexample :
    (Execute.run envT true datesT "dir" [rowUntagged]).1.saves.map (fun d => d.sha)
        = ["shaU"] ∧
    (Section.parse envT "dir" rowUntagged).2 = ["T1", "T2"] ∧
    (Execute.run envT true datesT "dir" [rowUntagged]).1.citations = [] := by
  refine ⟨?_, ?_, ?_⟩ <;> decide

/-- Looking up a submitted index among the completions finds exactly that
result of that job, whatever the arrival order. -/
theorem lookupNat_completions {α : Type} (l : List α) :
    ∀ (arrival : List Nat) (i : Nat), i ∈ arrival → i < l.length →
      lookupNat i (completionsOf l arrival) = l[i]?
  | [], i, hmem, _ => absurd hmem (List.not_mem_nil i)
  | j :: rest, i, hmem, hi => by
    unfold completionsOf
    rw [List.filterMap_cons]
    cases hj : l[j]? with
    | none =>
      rcases List.mem_cons.mp hmem with h | h
      · subst h
        rw [List.getElem?_eq_none_iff] at hj
        omega
      · simpa using lookupNat_completions l rest i h hi
    | some v =>
      by_cases hij : j = i
      · subst hij
        simp only [Option.map_some']
        rw [lookupNat, if_pos rfl, hj]
      · simp only [Option.map_some']
        rw [lookupNat, if_neg hij]
        rcases List.mem_cons.mp hmem with h | h
        · exact absurd h.symm hij
        · exact lookupNat_completions l rest i h hi

/-- Reading every index of the range back out of a list reproduces it. -/
theorem range_filterMap_getElem {α : Type} :
    ∀ l : List α, (List.range l.length).filterMap (fun i => l[i]?) = l
  | [] => by simp
  | a :: t => by
    show (List.range (t.length + 1)).filterMap (fun i => (a :: t)[i]?) = a :: t
    rw [List.range_succ_eq_map, List.filterMap_cons]
    simp only [List.getElem?_cons_zero]
    rw [List.filterMap_map]
    have : (fun i => (a :: t)[i + 1]?) = fun i => t[i]? := by
      funext i
      exact List.getElem?_cons_succ
    show a :: (List.range t.length).filterMap (fun i => (a :: t)[i + 1]?) = a :: t
    rw [this, range_filterMap_getElem t]

/-- The ordered fan-in releases the results in submission order: for any
arrival permutation of the submitted indices, the consumer sees exactly the
in-order result list. -/
theorem orderedFanIn_completions {α : Type} (l : List α) (arrival : List Nat)
    (hp : arrival.Perm (List.range l.length)) :
    orderedFanIn l.length (completionsOf l arrival) = l := by
  unfold orderedFanIn
  rw [List.filterMap_congr (g := fun i => l[i]?) ?_]
  · exact range_filterMap_getElem l
  · intro i hi
    exact lookupNat_completions l arrival i (hp.mem_iff.mpr hi) (List.mem_range.mp hi)

/-- C2: the parallel run is deterministic and equal to the sequential fold.
Whatever order the pool workers complete in (any permutation of the
submitted row indices), the ordered fan-in of pool.imap hands the consumer
the per-row processing results in input-file order, so the final accepted
set, the order of sink save calls, the final citation counter, and the abort
status all equal those of sequentially processing the rows in file order. -/
theorem claim_parallel_deterministic (env : Env) (full : Bool)
    (dates : String → Option String) (dir : String) (rows : List Row)
    (arrival : List Nat) (hp : arrival.Perm (List.range rows.length)) :
    Execute.parallelRun env full dates dir rows arrival
      = Execute.run env full dates dir rows := by
  unfold Execute.parallelRun Execute.run
  have hfan := orderedFanIn_completions (rows.map (Execute.process env dir)) arrival
    (by rw [List.length_map]; exact hp)
  rw [List.length_map] at hfan
  rw [hfan]

/-- Witness for C2: a two-row input with the workers completing in reversed
order yields exactly the sequential run. -/
theorem claim_parallel_deterministic_witness :
    Execute.parallelRun envT true datesT "dir" [rowTagged, rowUnknown] [1, 0]
      = Execute.run envT true datesT "dir" [rowTagged, rowUnknown] :=
  claim_parallel_deterministic envT true datesT "dir" [rowTagged, rowUnknown] [1, 0]
    (by decide)
